import Mathlib

/-!
Verification of the free-list allocator in `malloc_in_c_implementation.c`.

Shallow embedding of the C allocator.  Machine memory is abstracted to a
finite association store from addresses (`Nat`) to block headers; the program
break of `sbrk` is a `Nat` counter that advances by the granted amount.  The
single `sbrk` call a `my_malloc` invocation may perform is driven by a
boolean `ok` (`false` models the system call failing, in which case the break
is untouched, exactly as `sbrk` leaves the region untouched on failure).

`my_malloc` returns `Option (Option Nat × AllocState × Nat)`:
the outer `Option` is `none` only when the walk of the catalog chases a
dangling pointer or a cycle (undefined behaviour in C, unreachable for the
well-formed states the theorems quantify over); the triple carries the C
return value (`none` = `NULL`, `some p` = payload pointer `p`), the state
after the call, and the number of `sbrk` invocations the call performed.
-/

/-- The C `struct Block`: `size_t size` (payload bytes, excluding the
header), `struct Block *next`, `int is_free` (1 = free, 0 = allocated). -/
structure Block where
  size : Nat
  next : Option Nat
  is_free : Int
deriving DecidableEq

/-- Process state: the store of block headers indexed by address, the global
`free_list` head (line 17 of the C file), and the current program break. -/
structure AllocState where
  blocks : List (Nat × Block)
  free_list : Option Nat
  brk : Nat
deriving DecidableEq

/-- Read the block header stored at address `x` (first binding wins). -/
def lookupB : List (Nat × Block) → Nat → Option Block
  | [], _ => none
  | (a, b) :: rest, x => if a = x then some b else lookupB rest x

/-- Write the block header `b` at address `a`, overwriting any header already
recorded there. -/
def writeB : List (Nat × Block) → Nat → Block → List (Nat × Block)
  | [], a, b => [(a, b)]
  | (a0, b0) :: rest, a, b =>
    if a0 = a then (a, b) :: rest else (a0, b0) :: writeB rest a b

/-- `request_memory` (lines 20-26): wraps `sbrk(size)`.  On success it
returns the old break and advances it by `size`; on failure (`ok = false`)
it returns `NULL` and the state is untouched. -/
def request_memory (ok : Bool) (sz : Nat) (s : AllocState) :
    Option Nat × AllocState :=
  if ok then (some s.brk, { s with brk := s.brk + sz }) else (none, s)

/-- The candidate test of line 78: `current->is_free == 1 && current->size >
size` (strict inequality, sizes compared as `size_t` after the negative
check). -/
def qualifies (szN : Nat) (b : Block) : Bool :=
  b.is_free == 1 && decide (szN < b.size)

/-- Lines 80-103: the selected candidate `c` is marked allocated; if
`current->size > size + sizeof(Block) + 1` it is split, carving the
remainder header at `(char*)current + sizeof(Block) + size`, giving it the
leftover payload, marking it free, splicing it right after `c`, and
shrinking `c` to the requested size.  Returns `current + 1` (the payload)
and performs no `sbrk` call. -/
def selectBlock (hdr szN : Nat) (c : Nat) (b : Block) (s : AllocState) :
    Option Nat × AllocState × Nat :=
  let s1 : AllocState :=
    { s with blocks := writeB s.blocks c ⟨b.size, b.next, 0⟩ }
  if szN + hdr + 1 < b.size then
    let na := c + hdr + szN
    let s2 : AllocState :=
      { s1 with blocks := writeB s1.blocks na ⟨b.size - hdr - szN, b.next, 1⟩ }
    let s3 : AllocState :=
      { s2 with blocks := writeB s2.blocks c ⟨szN, some na, 0⟩ }
    (some (c + hdr), s3, 0)
  else
    (some (c + hdr), s1, 0)

/-- `previous->next = newblock` (line 126): rewrite only the `next` field of
the header at `p`.  (The address is always present when reached through the
walk; absence leaves the state unchanged.) -/
def setNext (s : AllocState) (p : Nat) (v : Option Nat) : AllocState :=
  match lookupB s.blocks p with
  | none => s
  | some b => { s with blocks := writeB s.blocks p ⟨b.size, v, b.is_free⟩ }

/-- Lines 111-129: the walk exhausted the catalog.  Request
`size + sizeof(Block)` bytes; on failure return `NULL` with no mutation;
on success initialise the fresh header (`size`, `is_free = 0`,
`next = NULL`), link it after `previous` when the walk visited at least one
block, and return its payload pointer. -/
def afterLoop (hdr szN : Nat) (ok : Bool) (prev : Option Nat)
    (s : AllocState) : Option Nat × AllocState × Nat :=
  match request_memory ok (szN + hdr) s with
  | (none, s1) => (none, s1, 1)
  | (some a, s1) =>
    let s2 : AllocState :=
      { s1 with blocks := writeB s1.blocks a ⟨szN, none, 0⟩ }
    let s3 : AllocState :=
      match prev with
      | some p => setNext s2 p (some a)
      | none => s2
    (some (a + hdr), s3, 1)

/-- The `while (current != NULL)` loop of lines 72-110 plus the fall-through
of lines 111-129, with `fuel` bounding the number of visited headers.  `none`
models the undefined behaviour of chasing a dangling `next` pointer or a
cyclic chain longer than the store. -/
def mallocLoop (hdr szN : Nat) (ok : Bool) (fuel : Nat)
    (cur prev : Option Nat) (s : AllocState) :
    Option (Option Nat × AllocState × Nat) :=
  match cur with
  | none => some (afterLoop hdr szN ok prev s)
  | some c =>
    match fuel with
    | 0 => none
    | fuel + 1 =>
      match lookupB s.blocks c with
      | none => none
      | some b =>
        if qualifies szN b then some (selectBlock hdr szN c b s)
        else mallocLoop hdr szN ok fuel b.next (some c) s

/-- `my_malloc` (lines 28-131).  `hdr` stands for `sizeof(Block)`; the C
`int size` parameter is an `Int`.  Negative sizes return `NULL` at once.
When `free_list == NULL` the empty-catalog path of lines 37-68 runs: request
`size + sizeof(Block)` bytes, fill in the fresh header, re-assign
`free_list = NULL` (line 55 — the branch is only entered when it already is
`NULL`), and return the payload `newblock + 1`; the guarded `return` at line
66 always fires because the `NULL` case already returned at line 43.
Otherwise the first-fit walk runs from the head. -/
def my_malloc (hdr : Nat) (ok : Bool) (s : AllocState) (size : Int) :
    Option (Option Nat × AllocState × Nat) :=
  if size < 0 then some (none, s, 0)
  else
    let szN := size.toNat
    match s.free_list with
    | none =>
      match request_memory ok (szN + hdr) s with
      | (none, s1) => some (none, s1, 1)
      | (some a, s1) =>
        let s2 : AllocState :=
          { s1 with blocks := writeB s1.blocks a ⟨szN, none, 0⟩ }
        let s3 : AllocState := { s2 with free_list := none }
        some (some (a + hdr), s3, 1)
    | some head => mallocLoop hdr szN ok (s.blocks.length + 1) (some head) none s

/-- The empty-catalog path alone (lines 30-68), with no reference to the
search loop: used to state that every reachable call takes this path. -/
def mallocEmptyPath (hdr : Nat) (ok : Bool) (s : AllocState) (size : Int) :
    Option (Option Nat × AllocState × Nat) :=
  if size < 0 then some (none, s, 0)
  else
    let szN := size.toNat
    match request_memory ok (szN + hdr) s with
    | (none, s1) => some (none, s1, 1)
    | (some a, s1) =>
      let s2 : AllocState :=
        { s1 with blocks := writeB s1.blocks a ⟨szN, none, 0⟩ }
      let s3 : AllocState := { s2 with free_list := none }
      some (some (a + hdr), s3, 1)

/-- The list of `(address, header)` pairs the walk of lines 72-110 visits
when started at `cur`, reading the untouched store of `s`; `none` when the
chain dangles or exceeds `fuel`. -/
def walk (s : AllocState) (fuel : Nat) (cur : Option Nat) :
    Option (List (Nat × Block)) :=
  match cur with
  | none => some []
  | some c =>
    match fuel with
    | 0 => none
    | fuel + 1 =>
      match lookupB s.blocks c with
      | none => none
      | some b => Option.map (fun L => (c, b) :: L) (walk s fuel b.next)

/-- The address of the last visited block, falling back to the incoming
`previous` when the walk visited nothing. -/
def lastAddr (L : List (Nat × Block)) (prev : Option Nat) : Option Nat :=
  match L.getLast? with
  | some e => some e.1
  | none => prev

/-- Run a sequence of `my_malloc` calls, each given its own `sbrk` verdict. -/
def runCalls (hdr : Nat) (s : AllocState) :
    List (Bool × Int) → Option AllocState
  | [] => some s
  | (ok, size) :: rest =>
    match my_malloc hdr ok s size with
    | none => none
    | some (_, s1, _) => runCalls hdr s1 rest

/-- The catalog reachable from the `free_list` head, in the sense of the
spec's glossary ("the ordered chain of all headers tracked by the
allocator"). -/
def catalogOf (s : AllocState) : Option (List (Nat × Block)) :=
  walk s (s.blocks.length + 1) s.free_list

/-! ## Store lemmas -/

theorem lookupB_writeB_self (l : List (Nat × Block)) (a : Nat) (b : Block) :
    lookupB (writeB l a b) a = some b := by
  induction l with
  | nil => simp [writeB, lookupB]
  | cons hd tl ih =>
    obtain ⟨a0, b0⟩ := hd
    by_cases h : a0 = a
    · subst h; simp [writeB, lookupB]
    · simp [writeB, lookupB, h, ih]

theorem lookupB_writeB_ne (l : List (Nat × Block)) (a x : Nat) (b : Block)
    (h : x ≠ a) : lookupB (writeB l a b) x = lookupB l x := by
  have hax : ¬ a = x := fun hh => h hh.symm
  induction l with
  | nil => simp [writeB, lookupB, hax]
  | cons hd tl ih =>
    obtain ⟨a0, b0⟩ := hd
    by_cases h0 : a0 = a
    · subst h0
      simp [writeB, lookupB, hax]
    · by_cases h1 : a0 = x <;> simp [writeB, lookupB, h0, h1, h, ih]

/-! ## The walk characterises the loop -/

theorem walk_cons (s : AllocState) (fuel c : Nat) (b : Block)
    (hl : lookupB s.blocks c = some b) :
    walk s (fuel + 1) (some c) =
      Option.map (fun L => (c, b) :: L) (walk s fuel b.next) := by
  rw [walk, hl]

theorem walk_zero (s : AllocState) (c : Nat) :
    walk s 0 (some c) = none := by
  rw [walk]

theorem walk_dangling (s : AllocState) (fuel c : Nat)
    (hl : lookupB s.blocks c = none) :
    walk s (fuel + 1) (some c) = none := by
  rw [walk, hl]

theorem mallocLoop_cons (hdr szN : Nat) (ok : Bool) (fuel c : Nat)
    (prev : Option Nat) (s : AllocState) (b : Block)
    (hl : lookupB s.blocks c = some b) :
    mallocLoop hdr szN ok (fuel + 1) (some c) prev s =
      if qualifies szN b then some (selectBlock hdr szN c b s)
      else mallocLoop hdr szN ok fuel b.next (some c) s := by
  rw [mallocLoop, hl]

theorem walk_mem (s : AllocState) :
    ∀ (fuel : Nat) (cur : Option Nat) (L : List (Nat × Block)),
      walk s fuel cur = some L →
      ∀ a b, (a, b) ∈ L → lookupB s.blocks a = some b := by
  intro fuel
  induction fuel with
  | zero =>
    intro cur L hw a b hm
    cases cur with
    | none =>
      simp only [walk, Option.some.injEq] at hw
      subst hw; simp at hm
    | some c => rw [walk_zero s c] at hw; simp at hw
  | succ fuel ih =>
    intro cur L hw a b hm
    cases cur with
    | none =>
      simp only [walk, Option.some.injEq] at hw
      subst hw; simp at hm
    | some c =>
      cases hl : lookupB s.blocks c with
      | none => rw [walk_dangling s fuel c hl] at hw; simp at hw
      | some b0 =>
        rw [walk_cons s fuel c b0 hl] at hw
        cases hw2 : walk s fuel b0.next with
        | none => rw [hw2] at hw; simp at hw
        | some L2 =>
          rw [hw2] at hw
          simp only [Option.map_some', Option.some.injEq] at hw
          subst hw
          rcases List.mem_cons.mp hm with hm | hm
          · cases hm; exact hl
          · exact ih b0.next L2 hw2 a b hm

theorem mallocLoop_walk (hdr szN : Nat) (ok : Bool) :
    ∀ (fuel : Nat) (cur prev : Option Nat) (s : AllocState)
      (L : List (Nat × Block)),
      walk s fuel cur = some L →
      mallocLoop hdr szN ok fuel cur prev s =
        some (match L.find? (fun e => qualifies szN e.2) with
              | some cb => selectBlock hdr szN cb.1 cb.2 s
              | none => afterLoop hdr szN ok (lastAddr L prev) s) := by
  intro fuel
  induction fuel with
  | zero =>
    intro cur prev s L hw
    cases cur with
    | none =>
      simp only [walk, Option.some.injEq] at hw
      subst hw
      simp [mallocLoop, lastAddr, List.find?]
    | some c => rw [walk_zero s c] at hw; simp at hw
  | succ fuel ih =>
    intro cur prev s L hw
    cases cur with
    | none =>
      simp only [walk, Option.some.injEq] at hw
      subst hw
      simp [mallocLoop, lastAddr, List.find?]
    | some c =>
      cases hl : lookupB s.blocks c with
      | none => rw [walk_dangling s fuel c hl] at hw; simp at hw
      | some b =>
        rw [walk_cons s fuel c b hl] at hw
        cases hw2 : walk s fuel b.next with
        | none => rw [hw2] at hw; simp at hw
        | some L2 =>
          rw [hw2] at hw
          simp only [Option.map_some', Option.some.injEq] at hw
          subst hw
          rw [mallocLoop_cons hdr szN ok fuel c prev s b hl]
          by_cases hq : qualifies szN b = true
          · rw [if_pos hq]
            have hfind : List.find? (fun e => qualifies szN e.2) ((c, b) :: L2) =
                some (c, b) := List.find?_cons_of_pos _ (by simpa using hq)
            rw [hfind]
          · rw [if_neg hq]
            rw [ih b.next (some c) s L2 hw2]
            have hfind : List.find? (fun e => qualifies szN e.2) ((c, b) :: L2) =
                List.find? (fun e => qualifies szN e.2) L2 :=
              List.find?_cons_of_neg _ (by simpa using hq)
            rw [hfind]
            cases hf : L2.find? (fun e => qualifies szN e.2) with
            | some cb => rfl
            | none =>
              have hlast : lastAddr ((c, b) :: L2) prev = lastAddr L2 (some c) := by
                cases L2 with
                | nil => simp [lastAddr]
                | cons x xs =>
                  simp only [lastAddr, List.getLast?_cons_cons]
                  cases hgl : (x :: xs).getLast? with
                  | none => simp [List.getLast?_eq_none_iff] at hgl
                  | some e => rfl
              rw [hlast]

/-! ## Unfolding helpers for `my_malloc` -/

theorem my_malloc_neg_eq (hdr : Nat) (ok : Bool) (s : AllocState) (size : Int)
    (h : size < 0) : my_malloc hdr ok s size = some (none, s, 0) := by
  unfold my_malloc
  rw [if_pos h]

theorem my_malloc_empty_eq (hdr : Nat) (ok : Bool) (s : AllocState)
    (size : Int) (hs : 0 ≤ size) (hfl : s.free_list = none) :
    my_malloc hdr ok s size =
      if ok then
        some (some (s.brk + hdr),
          ⟨writeB s.blocks s.brk ⟨size.toNat, none, 0⟩, none,
            s.brk + (size.toNat + hdr)⟩, 1)
      else some (none, s, 1) := by
  unfold my_malloc
  rw [if_neg (not_lt.mpr hs), hfl]
  cases ok <;> simp [request_memory]

theorem my_malloc_search_eq (hdr : Nat) (ok : Bool) (s : AllocState)
    (size : Int) (head : Nat) (hs : 0 ≤ size) (hfl : s.free_list = some head) :
    my_malloc hdr ok s size =
      mallocLoop hdr size.toNat ok (s.blocks.length + 1) (some head) none s := by
  unfold my_malloc
  rw [if_neg (not_lt.mpr hs), hfl]

theorem selectBlock_fst (hdr szN c : Nat) (b : Block) (s : AllocState) :
    (selectBlock hdr szN c b s).1 = some (c + hdr) := by
  unfold selectBlock
  by_cases h : szN + hdr + 1 < b.size <;> simp [h]

theorem mallocLoop_ptr_ge (hdr szN : Nat) (ok : Bool) :
    ∀ (fuel : Nat) (cur prev : Option Nat) (s : AllocState) (r : Option Nat)
      (s1 : AllocState) (n p : Nat),
      mallocLoop hdr szN ok fuel cur prev s = some (r, s1, n) →
      r = some p → hdr ≤ p := by
  intro fuel
  induction fuel with
  | zero =>
    intro cur prev s r s1 n p h hp
    cases cur with
    | none =>
      subst hp
      simp only [mallocLoop] at h
      unfold afterLoop request_memory at h
      cases ok <;> simp_all
      omega
    | some c => simp [mallocLoop] at h
  | succ fuel ih =>
    intro cur prev s r s1 n p h hp
    cases cur with
    | none =>
      subst hp
      simp only [mallocLoop] at h
      unfold afterLoop request_memory at h
      cases ok <;> simp_all
      omega
    | some c =>
      cases hl : lookupB s.blocks c with
      | none => rw [mallocLoop, hl] at h; simp at h
      | some b =>
        rw [mallocLoop_cons hdr szN ok fuel c prev s b hl] at h
        by_cases hq : qualifies szN b = true
        · rw [if_pos hq] at h
          subst hp
          have heq : selectBlock hdr szN c b s = (some p, s1, n) :=
            Option.some.inj h
          have hfst := selectBlock_fst hdr szN c b s
          rw [heq] at hfst
          have hpe : p = c + hdr := Option.some.inj hfst
          omega
        · rw [if_neg hq] at h
          exact ih b.next (some c) s r s1 n p h hp

/-! ## Claim theorems -/

/-- C8: for every requested size strictly below zero, `my_malloc` takes the
rejection path of lines 30-33 and returns the failure value (the outcome the
spec's taxonomy labels `InvalidArgument`); in particular `my_malloc(-1)`
fails. -/
theorem my_malloc_negative_size_fails (hdr : Nat) (ok : Bool) (s : AllocState)
    (size : Int) (h : size < 0) :
    (my_malloc hdr ok s size).map (fun r => r.1) = some none ∧
    (my_malloc hdr ok s (-1)).map (fun r => r.1) = some none := by
  rw [my_malloc_neg_eq hdr ok s size h,
    my_malloc_neg_eq hdr ok s (-1) (by decide)]
  exact ⟨rfl, rfl⟩

theorem my_malloc_negative_size_fails_witness :
    (-5 : Int) < 0 ∧
    ((my_malloc 24 true ⟨[], none, 1000⟩ (-5)).map (fun r => r.1) = some none ∧
     (my_malloc 24 true ⟨[], none, 1000⟩ (-1)).map (fun r => r.1) = some none) :=
  ⟨by decide,
    my_malloc_negative_size_fails 24 true ⟨[], none, 1000⟩ (-5) (by decide)⟩

/-- C10: a negative-size request is rejected before anything else happens:
`my_malloc` returns the failure value having performed zero `sbrk` calls and
leaving the state — catalog head and every block header — exactly as it
was. -/
theorem my_malloc_negative_size_no_syscall (hdr : Nat) (ok : Bool)
    (s : AllocState) (size : Int) (h : size < 0) :
    my_malloc hdr ok s size = some (none, s, 0) :=
  my_malloc_neg_eq hdr ok s size h

theorem my_malloc_negative_size_no_syscall_witness :
    (-1 : Int) < 0 ∧
    my_malloc 24 true ⟨[(100, ⟨8, none, 1⟩)], some 100, 500⟩ (-1) =
      some (none, ⟨[(100, ⟨8, none, 1⟩)], some 100, 500⟩, 0) :=
  ⟨by decide,
    my_malloc_negative_size_no_syscall 24 true
      ⟨[(100, ⟨8, none, 1⟩)], some 100, 500⟩ (-1) (by decide)⟩

/-- C9 counterexample: the claim says the InvalidArgument outcome and the
OutOfMemory outcome are distinguishable from each other, but at concrete
inputs the negative-size call `my_malloc(-1)` and the extender-failure call
`my_malloc(5)` return the very same value `NULL`: the caller cannot tell the
two failures apart. -/
theorem my_malloc_failure_values_collide :
    (my_malloc 24 true ⟨[], none, 1000⟩ (-1)).map (fun r => r.1) =
      (my_malloc 24 false ⟨[], none, 1000⟩ 5).map (fun r => r.1) ∧
    (my_malloc 24 true ⟨[], none, 1000⟩ (-1)).map (fun r => r.1) =
      some none := by
  constructor <;> rfl

/-- C9 amended: every failure path returns `NULL`, which is distinguishable
from every successful (including zero-size) allocation because a successful
`my_malloc` never returns the null address — its payload pointer sits one
header size above a block address, hence is positive whenever the header
size is; however the `InvalidArgument` and `OutOfMemory` failures both
return the same `NULL` and are not distinguishable from each other. -/
theorem my_malloc_success_never_null (hdr : Nat) (ok : Bool) (s : AllocState)
    (size : Int) (r : Option Nat) (s1 : AllocState) (n p : Nat)
    (hhdr : 0 < hdr) (h : my_malloc hdr ok s size = some (r, s1, n))
    (hp : r = some p) : 0 < p := by
  subst hp
  by_cases hneg : size < 0
  · rw [my_malloc_neg_eq hdr ok s size hneg] at h
    simp at h
  · push_neg at hneg
    cases hfl : s.free_list with
    | none =>
      rw [my_malloc_empty_eq hdr ok s size hneg hfl] at h
      cases ok with
      | false => simp at h
      | true =>
        simp only [if_pos, Option.some.injEq, Prod.mk.injEq] at h
        omega
    | some head =>
      rw [my_malloc_search_eq hdr ok s size head hneg hfl] at h
      have := mallocLoop_ptr_ge hdr size.toNat ok (s.blocks.length + 1)
        (some head) none s (some p) s1 n p h rfl
      omega

theorem my_malloc_success_never_null_witness :
    0 < 24 ∧
    my_malloc 24 true ⟨[], none, 1000⟩ 0 =
      some (some 1024, ⟨[(1000, ⟨0, none, 0⟩)], none, 1024⟩, 1) ∧
    0 < 1024 :=
  ⟨by decide, by decide,
    my_malloc_success_never_null 24 true ⟨[], none, 1000⟩ 0 (some 1024)
      ⟨[(1000, ⟨0, none, 0⟩)], none, 1024⟩ 1 1024 (by decide) (by decide) rfl⟩

theorem my_malloc_preserves_none (hdr : Nat) (ok : Bool) (s : AllocState)
    (size : Int) (hfl : s.free_list = none) :
    ∃ r s1 n, my_malloc hdr ok s size = some (r, s1, n) ∧
      s1.free_list = none := by
  by_cases hneg : size < 0
  · exact ⟨none, s, 0, my_malloc_neg_eq hdr ok s size hneg, hfl⟩
  · push_neg at hneg
    rw [my_malloc_empty_eq hdr ok s size hneg hfl]
    cases ok with
    | false => exact ⟨none, s, 1, rfl, hfl⟩
    | true => exact ⟨_, _, 1, rfl, rfl⟩

theorem runCalls_preserves_none (hdr : Nat) :
    ∀ (reqs : List (Bool × Int)) (s : AllocState), s.free_list = none →
      ∃ s1, runCalls hdr s reqs = some s1 ∧ s1.free_list = none := by
  intro reqs
  induction reqs with
  | nil => intro s hfl; exact ⟨s, rfl, hfl⟩
  | cons q rest ih =>
    intro s hfl
    obtain ⟨ok, size⟩ := q
    obtain ⟨r, s1, n, hm, h1⟩ := my_malloc_preserves_none hdr ok s size hfl
    obtain ⟨s2, hr, h2⟩ := ih s1 h1
    refine ⟨s2, ?_, h2⟩
    simp only [runCalls, hm]
    exact hr

/-- C4: the source re-assigns the catalog head to empty on the very first
allocation (line 55) and no statement in the source ever assigns it a
non-null value, so from any empty-head state — as at process start — every
`my_malloc` call behaves exactly as the loop-free empty-catalog
(heap-extender) path, the first-fit search loop is never entered, and after
any sequence of calls the catalog head is still empty. -/
theorem free_list_always_none (hdr : Nat) (s : AllocState)
    (hfl : s.free_list = none) :
    (∀ ok size, my_malloc hdr ok s size = mallocEmptyPath hdr ok s size) ∧
    (∀ reqs, ∃ s1, runCalls hdr s reqs = some s1 ∧ s1.free_list = none) := by
  constructor
  · intro ok size
    unfold my_malloc mallocEmptyPath
    rw [hfl]
  · intro reqs
    exact runCalls_preserves_none hdr reqs s hfl

theorem free_list_always_none_witness :
    (⟨[], none, 1000⟩ : AllocState).free_list = none ∧
    my_malloc 24 true ⟨[], none, 1000⟩ 16 =
      mallocEmptyPath 24 true ⟨[], none, 1000⟩ 16 ∧
    ∃ s1, runCalls 24 ⟨[], none, 1000⟩
        [(true, 16), (false, 8), (true, -1), (true, 0)] = some s1 ∧
      s1.free_list = none :=
  ⟨rfl, (free_list_always_none 24 ⟨[], none, 1000⟩ rfl).1 true 16,
    (free_list_always_none 24 ⟨[], none, 1000⟩ rfl).2
      [(true, 16), (false, 8), (true, -1), (true, 0)]⟩

/-- C1: for every requested size at least zero, in any state whose catalog
head is empty (the invariant every reachable state satisfies), `my_malloc`
either fails with the OutOfMemory value exactly when the heap extender
fails, or returns the payload pointer `brk + sizeof(Block)` of a block whose
recorded payload_size is the requested size (so at least `size` usable
bytes), the whole payload lying inside the region just obtained from the
heap extender. -/
theorem my_malloc_size_or_oom (hdr : Nat) (ok : Bool) (s : AllocState)
    (size : Int) (hs : 0 ≤ size) (hfl : s.free_list = none) :
    (ok = false → my_malloc hdr ok s size = some (none, s, 1)) ∧
    (ok = true → ∃ s1,
      my_malloc hdr ok s size = some (some (s.brk + hdr), s1, 1) ∧
      lookupB s1.blocks s.brk = some ⟨size.toNat, none, 0⟩ ∧
      size ≤ (size.toNat : Int) ∧
      s1.brk = s.brk + (size.toNat + hdr) ∧
      s.brk + hdr + size.toNat ≤ s1.brk ∧
      s1.free_list = none) := by
  constructor
  · intro hok; subst hok
    rw [my_malloc_empty_eq hdr false s size hs hfl]
    simp
  · intro hok; subst hok
    rw [my_malloc_empty_eq hdr true s size hs hfl]
    refine ⟨⟨writeB s.blocks s.brk ⟨size.toNat, none, 0⟩, none,
        s.brk + (size.toNat + hdr)⟩, by simp,
      lookupB_writeB_self s.blocks s.brk _,
      Int.self_le_toNat size, rfl,
      by show s.brk + hdr + size.toNat ≤ s.brk + (size.toNat + hdr); omega, rfl⟩

theorem my_malloc_size_or_oom_witness :
    (0 : Int) ≤ 16 ∧ (⟨[], none, 1000⟩ : AllocState).free_list = none ∧
    ((false = false →
        my_malloc 24 false ⟨[], none, 1000⟩ 16 =
          some (none, ⟨[], none, 1000⟩, 1)) ∧
     (false = true → ∃ s1,
        my_malloc 24 false ⟨[], none, 1000⟩ 16 = some (some 1024, s1, 1) ∧
        lookupB s1.blocks 1000 = some ⟨16, none, 0⟩ ∧
        (16 : Int) ≤ ((16 : Int).toNat : Int) ∧
        s1.brk = 1000 + (16 + 24) ∧
        1000 + 24 + 16 ≤ s1.brk ∧
        s1.free_list = none)) :=
  ⟨by decide, rfl,
    my_malloc_size_or_oom 24 false ⟨[], none, 1000⟩ 16 (by decide) rfl⟩

theorem selectBlock_eta (hdr szN c : Nat) (b : Block) (s : AllocState) :
    selectBlock hdr szN c b s =
      (some (c + hdr), (selectBlock hdr szN c b s).2.1, 0) := by
  unfold selectBlock
  by_cases h : szN + hdr + 1 < b.size <;> simp [h]

theorem afterLoop_snd (hdr szN : Nat) (ok : Bool) (prev : Option Nat)
    (s : AllocState) : (afterLoop hdr szN ok prev s).2.2 = 1 := by
  unfold afterLoop request_memory
  cases ok <;> rfl

theorem qualifies_iff (szN : Nat) (b : Block) :
    qualifies szN b = true ↔ b.is_free = 1 ∧ szN < b.size := by
  simp [qualifies]

/-- C2: the search walks the catalog from its head and selects exactly the
first visited block with `is_free == 1` and payload_size strictly greater
than the requested size — the selected block satisfies both conditions, so a
block whose payload_size merely equals the request, or whose `is_free` flag
is not 1, is never the one selected — returning that block's payload pointer
with no extender call; when no visited block qualifies the call falls
through to the heap extender instead of selecting anything. -/
theorem my_malloc_first_fit (hdr : Nat) (ok : Bool) (s : AllocState)
    (size : Int) (head : Nat) (L : List (Nat × Block))
    (hs : 0 ≤ size) (hfl : s.free_list = some head)
    (hw : walk s (s.blocks.length + 1) (some head) = some L) :
    (∀ c b, L.find? (fun e => qualifies size.toNat e.2) = some (c, b) →
      b.is_free = 1 ∧ size.toNat < b.size ∧
      ∃ s1, my_malloc hdr ok s size = some (some (c + hdr), s1, 0)) ∧
    (L.find? (fun e => qualifies size.toNat e.2) = none →
      ∃ r s1, my_malloc hdr ok s size = some (r, s1, 1)) := by
  have hm := my_malloc_search_eq hdr ok s size head hs hfl
  have hloop := mallocLoop_walk hdr size.toNat ok (s.blocks.length + 1)
    (some head) none s L hw
  constructor
  · intro c b hfind
    have hq : qualifies size.toNat b = true := by
      have := List.find?_some hfind
      simpa using this
    obtain ⟨hq1, hq2⟩ := (qualifies_iff size.toNat b).mp hq
    refine ⟨hq1, hq2, (selectBlock hdr size.toNat c b s).2.1, ?_⟩
    rw [hm, hloop, hfind]
    exact congrArg some (selectBlock_eta hdr size.toNat c b s)
  · intro hfind
    refine ⟨(afterLoop hdr size.toNat ok (lastAddr L none) s).1,
      (afterLoop hdr size.toNat ok (lastAddr L none) s).2.1, ?_⟩
    rw [hm, hloop, hfind]
    have h22 := afterLoop_snd hdr size.toNat ok (lastAddr L none) s
    exact congrArg some (by rw [← h22])

theorem my_malloc_first_fit_witness :
    ((0 : Int) ≤ 16 ∧
     (⟨[(100, ⟨100, some 200, 0⟩), (200, ⟨16, some 300, 1⟩), (300, ⟨50, none, 1⟩)], some 100, 500⟩ : AllocState).free_list = some 100 ∧
     walk (⟨[(100, ⟨100, some 200, 0⟩), (200, ⟨16, some 300, 1⟩), (300, ⟨50, none, 1⟩)], some 100, 500⟩ : AllocState)
       ((⟨[(100, ⟨100, some 200, 0⟩), (200, ⟨16, some 300, 1⟩), (300, ⟨50, none, 1⟩)], some 100, 500⟩ : AllocState).blocks.length + 1) (some 100) = some [(100, (⟨100, some 200, 0⟩ : Block)), (200, ⟨16, some 300, 1⟩), (300, ⟨50, none, 1⟩)]) ∧
    ((∀ c b,
        List.find? (fun e => qualifies (16 : Int).toNat e.2) [(100, (⟨100, some 200, 0⟩ : Block)), (200, ⟨16, some 300, 1⟩), (300, ⟨50, none, 1⟩)] = some (c, b) →
        b.is_free = 1 ∧ (16 : Int).toNat < b.size ∧
        ∃ s1, my_malloc 24 true ⟨[(100, ⟨100, some 200, 0⟩), (200, ⟨16, some 300, 1⟩), (300, ⟨50, none, 1⟩)], some 100, 500⟩ 16 = some (some (c + 24), s1, 0)) ∧
     (List.find? (fun e => qualifies (16 : Int).toNat e.2) [(100, (⟨100, some 200, 0⟩ : Block)), (200, ⟨16, some 300, 1⟩), (300, ⟨50, none, 1⟩)] = none →
      ∃ r s1, my_malloc 24 true ⟨[(100, ⟨100, some 200, 0⟩), (200, ⟨16, some 300, 1⟩), (300, ⟨50, none, 1⟩)], some 100, 500⟩ 16 = some (r, s1, 1))) :=
  ⟨⟨by decide, rfl, by decide⟩,
    my_malloc_first_fit 24 true ⟨[(100, ⟨100, some 200, 0⟩), (200, ⟨16, some 300, 1⟩), (300, ⟨50, none, 1⟩)], some 100, 500⟩ 16 100 [(100, (⟨100, some 200, 0⟩ : Block)), (200, ⟨16, some 300, 1⟩), (300, ⟨50, none, 1⟩)] (by decide) rfl (by decide)⟩

/-- C3 counterexample: with header size 24 and a qualifying free block of
payload 100 whose header sits at address 100 (payload start 124),
`my_malloc(16)` carves the remainder header at 140 = 100 + 24 + 16, offset
header_size + requested_size from the candidate's HEADER start; the claim
places it at offset header_size + requested_size from the payload start,
which is 124 + 24 + 16 = 164, where no block exists at all. -/
theorem my_malloc_split_offset_cex :
    my_malloc 24 true ⟨[(100, ⟨100, none, 1⟩)], some 100, 500⟩ 16 =
      some (some 124,
        ⟨[(100, ⟨16, some 140, 0⟩), (140, ⟨60, none, 1⟩)], some 100, 500⟩,
        0) ∧
    lookupB [(100, ⟨16, some 140, 0⟩), (140, ⟨60, none, 1⟩)] 164 = none ∧
    lookupB [(100, ⟨16, some 140, 0⟩), (140, ⟨60, none, 1⟩)] 140 =
      some ⟨60, none, 1⟩ :=
  ⟨by decide, by decide, by decide⟩

/-- C3 amended: when the first qualifying block `(c, b)` is selected,
`my_malloc` splits it if and only if `payload_size > requested_size +
header_size + 1`; in that case the remainder block is created at offset
`header_size + requested_size` from the candidate's header start (that is,
offset `requested_size` from its payload start), receives
`payload_size = old_payload_size - header_size - requested_size`, is marked
free, is spliced immediately after the candidate (the candidate's `next`
points to it and it inherits the candidate's old `next`), and the
candidate's payload_size shrinks to exactly the requested size; otherwise
the candidate keeps its oversized payload_size, its `next` is untouched,
and no other address of the store changes — no new block is created. -/
theorem my_malloc_split_iff (hdr : Nat) (ok : Bool) (s : AllocState)
    (size : Int) (head c : Nat) (b : Block) (L : List (Nat × Block))
    (hhdr : 0 < hdr) (hs : 0 ≤ size) (hfl : s.free_list = some head)
    (hw : walk s (s.blocks.length + 1) (some head) = some L)
    (hfind : L.find? (fun e => qualifies size.toNat e.2) = some (c, b)) :
    ∃ s1, my_malloc hdr ok s size = some (some (c + hdr), s1, 0) ∧
      s1.free_list = s.free_list ∧ s1.brk = s.brk ∧
      (size.toNat + hdr + 1 < b.size →
        lookupB s1.blocks c =
          some ⟨size.toNat, some (c + hdr + size.toNat), 0⟩ ∧
        lookupB s1.blocks (c + hdr + size.toNat) =
          some ⟨b.size - hdr - size.toNat, b.next, 1⟩ ∧
        ∀ a, a ≠ c → a ≠ c + hdr + size.toNat →
          lookupB s1.blocks a = lookupB s.blocks a) ∧
      (¬ (size.toNat + hdr + 1 < b.size) →
        lookupB s1.blocks c = some ⟨b.size, b.next, 0⟩ ∧
        ∀ a, a ≠ c → lookupB s1.blocks a = lookupB s.blocks a) := by
  have hm := my_malloc_search_eq hdr ok s size head hs hfl
  have hloop := mallocLoop_walk hdr size.toNat ok (s.blocks.length + 1)
    (some head) none s L hw
  have hne : c + hdr + size.toNat ≠ c := by omega
  by_cases hsplit : size.toNat + hdr + 1 < b.size
  · refine ⟨{ s with blocks := writeB (writeB (writeB s.blocks c ⟨b.size, b.next, 0⟩) (c + hdr + size.toNat) ⟨b.size - hdr - size.toNat, b.next, 1⟩) c ⟨size.toNat, some (c + hdr + size.toNat), 0⟩ }, ?_, rfl, rfl, ?_, fun hcon => absurd hsplit hcon⟩
    · rw [hm, hloop, hfind]
      refine congrArg some ?_
      simp only [selectBlock, if_pos hsplit]
    · intro _
      refine ⟨lookupB_writeB_self _ _ _, ?_, ?_⟩
      · rw [lookupB_writeB_ne _ _ _ _ hne, lookupB_writeB_self]
      · intro a hac hana
        rw [lookupB_writeB_ne _ _ _ _ hac, lookupB_writeB_ne _ _ _ _ hana,
          lookupB_writeB_ne _ _ _ _ hac]
  · refine ⟨{ s with blocks := writeB s.blocks c ⟨b.size, b.next, 0⟩ },
      ?_, rfl, rfl, fun hcon => absurd hcon hsplit, ?_⟩
    · rw [hm, hloop, hfind]
      refine congrArg some ?_
      simp only [selectBlock, if_neg hsplit]
    · intro _
      refine ⟨lookupB_writeB_self _ _ _, ?_⟩
      intro a hac
      rw [lookupB_writeB_ne _ _ _ _ hac]

theorem my_malloc_split_iff_witness :
    ((0 : Nat) < 24 ∧ (0 : Int) ≤ 16 ∧ (⟨[(100, ⟨100, none, 1⟩)], some 100, 500⟩ : AllocState).free_list = some 100 ∧
     walk (⟨[(100, ⟨100, none, 1⟩)], some 100, 500⟩ : AllocState) ((⟨[(100, ⟨100, none, 1⟩)], some 100, 500⟩ : AllocState).blocks.length + 1) (some 100) = some [(100, (⟨100, none, 1⟩ : Block))] ∧
     List.find? (fun e => qualifies (16 : Int).toNat e.2) [(100, (⟨100, none, 1⟩ : Block))] = some (100, (⟨100, none, 1⟩ : Block))) ∧
    (∃ s1, my_malloc 24 true (⟨[(100, ⟨100, none, 1⟩)], some 100, 500⟩ : AllocState) 16 = some (some (100 + 24), s1, 0) ∧
      s1.free_list = (⟨[(100, ⟨100, none, 1⟩)], some 100, 500⟩ : AllocState).free_list ∧ s1.brk = (⟨[(100, ⟨100, none, 1⟩)], some 100, 500⟩ : AllocState).brk ∧
      ((16 : Int).toNat + 24 + 1 < (⟨100, none, 1⟩ : Block).size →
        lookupB s1.blocks 100 = some ⟨(16 : Int).toNat, some (100 + 24 + (16 : Int).toNat), 0⟩ ∧
        lookupB s1.blocks (100 + 24 + (16 : Int).toNat) =
          some ⟨(⟨100, none, 1⟩ : Block).size - 24 - (16 : Int).toNat, (⟨100, none, 1⟩ : Block).next, 1⟩ ∧
        ∀ a, a ≠ 100 → a ≠ 100 + 24 + (16 : Int).toNat →
          lookupB s1.blocks a = lookupB (⟨[(100, ⟨100, none, 1⟩)], some 100, 500⟩ : AllocState).blocks a) ∧
      (¬ ((16 : Int).toNat + 24 + 1 < (⟨100, none, 1⟩ : Block).size) →
        lookupB s1.blocks 100 = some ⟨(⟨100, none, 1⟩ : Block).size, (⟨100, none, 1⟩ : Block).next, 0⟩ ∧
        ∀ a, a ≠ 100 → lookupB s1.blocks a = lookupB (⟨[(100, ⟨100, none, 1⟩)], some 100, 500⟩ : AllocState).blocks a)) :=
  ⟨⟨by decide, by decide, rfl, by decide, by decide⟩,
    my_malloc_split_iff 24 true (⟨[(100, ⟨100, none, 1⟩)], some 100, 500⟩ : AllocState) 16 100 100 (⟨100, none, 1⟩ : Block) [(100, (⟨100, none, 1⟩ : Block))]
      (by decide) (by decide) rfl (by decide) (by decide)⟩

theorem afterLoop_ok (hdr szN la : Nat) (lb : Block) (s : AllocState)
    (hne : la ≠ s.brk) (hlb : lookupB s.blocks la = some lb) :
    afterLoop hdr szN true (some la) s =
      (some (s.brk + hdr),
       ⟨writeB (writeB s.blocks s.brk ⟨szN, none, 0⟩) la
          ⟨lb.size, some s.brk, lb.is_free⟩, s.free_list,
        s.brk + (szN + hdr)⟩, 1) := by
  unfold afterLoop request_memory setNext
  simp only [if_true]
  rw [lookupB_writeB_ne _ _ _ _ hne, hlb]

/-- C6: when the catalog is non-empty and the walk exhausts it without a
qualifying block, `my_malloc` with a succeeding extender requests exactly
requested_size + header_size bytes (the break advances by that amount),
writes the new block at the old break with is_free = 0 and next = the
terminator, links it after the last block the walk visited — the catalog's
tail — and returns the new block's payload pointer. -/
theorem my_malloc_append_tail (hdr : Nat) (s : AllocState) (size : Int)
    (head la : Nat) (lb : Block) (L : List (Nat × Block))
    (hs : 0 ≤ size) (hfl : s.free_list = some head)
    (hw : walk s (s.blocks.length + 1) (some head) = some L)
    (hnofit : L.find? (fun e => qualifies size.toNat e.2) = none)
    (hlast : L.getLast? = some (la, lb)) (hne : la ≠ s.brk) :
    ∃ s1, my_malloc hdr true s size = some (some (s.brk + hdr), s1, 1) ∧
      s1.brk = s.brk + (size.toNat + hdr) ∧
      lookupB s1.blocks s.brk = some ⟨size.toNat, none, 0⟩ ∧
      lookupB s1.blocks la = some ⟨lb.size, some s.brk, lb.is_free⟩ ∧
      (∀ a, a ≠ s.brk → a ≠ la → lookupB s1.blocks a = lookupB s.blocks a) ∧
      s1.free_list = s.free_list := by
  have hm := my_malloc_search_eq hdr true s size head hs hfl
  have hloop := mallocLoop_walk hdr size.toNat true (s.blocks.length + 1)
    (some head) none s L hw
  have hla : lastAddr L none = some la := by unfold lastAddr; rw [hlast]
  have hmem : (la, lb) ∈ L := by
    obtain ⟨hgl, hx⟩ := List.mem_getLast?_eq_getLast (Option.mem_def.mpr hlast)
    rw [hx]
    exact List.getLast_mem hgl
  have hlb : lookupB s.blocks la = some lb :=
    walk_mem s (s.blocks.length + 1) (some head) L hw la lb hmem
  have hbrkla : s.brk ≠ la := fun h => hne h.symm
  refine ⟨⟨writeB (writeB s.blocks s.brk ⟨size.toNat, none, 0⟩) la
      ⟨lb.size, some s.brk, lb.is_free⟩, s.free_list,
      s.brk + (size.toNat + hdr)⟩, ?_, rfl, ?_, ?_, ?_, rfl⟩
  · rw [hm, hloop, hnofit, hla,
      afterLoop_ok hdr size.toNat la lb s hne hlb]
  · rw [lookupB_writeB_ne _ _ _ _ hbrkla, lookupB_writeB_self]
  · exact lookupB_writeB_self _ _ _
  · intro a ha1 ha2
    rw [lookupB_writeB_ne _ _ _ _ ha2, lookupB_writeB_ne _ _ _ _ ha1]

theorem my_malloc_append_tail_witness :
    ((0 : Int) ≤ 16 ∧
     (⟨[(100, ⟨8, none, 1⟩)], some 100, 500⟩ : AllocState).free_list =
       some 100 ∧
     walk (⟨[(100, ⟨8, none, 1⟩)], some 100, 500⟩ : AllocState)
       ((⟨[(100, ⟨8, none, 1⟩)], some 100, 500⟩ : AllocState).blocks.length + 1)
       (some 100) = some [(100, ⟨8, none, 1⟩)] ∧
     List.find? (fun e => qualifies (16 : Int).toNat e.2)
       [(100, (⟨8, none, 1⟩ : Block))] = none ∧
     [(100, (⟨8, none, 1⟩ : Block))].getLast? = some (100, ⟨8, none, 1⟩) ∧
     (100 : Nat) ≠ 500) ∧
    (∃ s1, my_malloc 24 true ⟨[(100, ⟨8, none, 1⟩)], some 100, 500⟩ 16 =
        some (some (500 + 24), s1, 1) ∧
      s1.brk = 500 + ((16 : Int).toNat + 24) ∧
      lookupB s1.blocks 500 = some ⟨(16 : Int).toNat, none, 0⟩ ∧
      lookupB s1.blocks 100 =
        some ⟨(⟨8, none, 1⟩ : Block).size, some 500,
          (⟨8, none, 1⟩ : Block).is_free⟩ ∧
      (∀ a, a ≠ 500 → a ≠ 100 →
        lookupB s1.blocks a =
          lookupB (⟨[(100, ⟨8, none, 1⟩)], some 100, 500⟩ :
            AllocState).blocks a) ∧
      s1.free_list =
        (⟨[(100, ⟨8, none, 1⟩)], some 100, 500⟩ : AllocState).free_list) :=
  ⟨⟨by decide, rfl, by decide, by decide, by decide, by decide⟩,
    my_malloc_append_tail 24 ⟨[(100, ⟨8, none, 1⟩)], some 100, 500⟩ 16 100
      100 ⟨8, none, 1⟩ [(100, ⟨8, none, 1⟩)] (by decide) rfl (by decide)
      (by decide) (by decide) (by decide)⟩

/-- C7: whenever the heap extender is actually consulted and fails — the
catalog is empty, or it is exhausted with no qualifying block — `my_malloc`
propagates the failure value to the caller and performs no mutation at all:
the returned state is literally the input state, catalog head, every header
and every link included. -/
theorem my_malloc_oom_no_mutation (hdr : Nat) (s : AllocState) (size : Int)
    (hs : 0 ≤ size)
    (hnofit : ∀ head, s.free_list = some head →
      ∃ L, walk s (s.blocks.length + 1) (some head) = some L ∧
        L.find? (fun e => qualifies size.toNat e.2) = none) :
    my_malloc hdr false s size = some (none, s, 1) := by
  cases hfl : s.free_list with
  | none =>
    rw [my_malloc_empty_eq hdr false s size hs hfl]
    simp
  | some head =>
    obtain ⟨L, hw, hn⟩ := hnofit head hfl
    rw [my_malloc_search_eq hdr false s size head hs hfl,
      mallocLoop_walk hdr size.toNat false (s.blocks.length + 1)
        (some head) none s L hw, hn]
    unfold afterLoop request_memory
    rfl

theorem my_malloc_oom_no_mutation_witness :
    (0 : Int) ≤ 16 ∧
    my_malloc 24 false ⟨[(100, ⟨8, none, 1⟩)], some 100, 500⟩ 16 =
      some (none, ⟨[(100, ⟨8, none, 1⟩)], some 100, 500⟩, 1) :=
  ⟨by decide,
    my_malloc_oom_no_mutation 24 ⟨[(100, ⟨8, none, 1⟩)], some 100, 500⟩ 16
      (by decide)
      (fun head h => by
        have hh : head = 100 := by
          have := Option.some.inj h.symm
          omega
        subst hh
        exact ⟨[(100, ⟨8, none, 1⟩)], by decide, by decide⟩)⟩

/-- C5 counterexample: run the two successful `my_malloc(16)` calls from the
empty heap.  The second call's block does exist in memory at 1040 — but the
catalog reachable from the head is empty afterwards (the head is still the
terminator), so the second call did not append its new block to the
catalog: nothing was appended to any chain.  The distinct/non-overlapping
part of the claim does hold; see the amended theorem. -/
theorem second_alloc_not_in_catalog :
    runCalls 24 ⟨[], none, 1000⟩ [(true, 16), (true, 16)] =
      some ⟨[(1000, ⟨16, none, 0⟩), (1040, ⟨16, none, 0⟩)], none, 1080⟩ ∧
    catalogOf ⟨[(1000, ⟨16, none, 0⟩), (1040, ⟨16, none, 0⟩)], none, 1080⟩ =
      some [] ∧
    lookupB [(1000, ⟨16, none, 0⟩), (1040, ⟨16, none, 0⟩)] 1040 =
      some ⟨16, none, 0⟩ :=
  ⟨by decide, by decide, by decide⟩

/-- C5 amended: starting from an empty heap, two consecutive `my_malloc(16)`
calls with a succeeding extender return distinct, non-overlapping payload
pointers, and the second call creates a fresh block from the extender at a
fresh address rather than reusing the first block's region (the first block
remains in place, still marked allocated); the new block, however, is not
appended to the catalog — the catalog head stays empty. -/
theorem two_allocs_fresh_blocks (hdr brk0 : Nat) :
    ∃ s1 s2 : AllocState,
      my_malloc hdr true ⟨[], none, brk0⟩ 16 =
        some (some (brk0 + hdr), s1, 1) ∧
      my_malloc hdr true s1 16 =
        some (some (brk0 + (16 + hdr) + hdr), s2, 1) ∧
      brk0 + hdr ≠ brk0 + (16 + hdr) + hdr ∧
      brk0 + hdr + 16 ≤ brk0 + (16 + hdr) + hdr ∧
      lookupB s2.blocks brk0 = some ⟨16, none, 0⟩ ∧
      lookupB s2.blocks (brk0 + (16 + hdr)) = some ⟨16, none, 0⟩ ∧
      brk0 + (16 + hdr) ≠ brk0 ∧
      s2.free_list = none := by
  have hne2 : ¬ (brk0 = brk0 + (16 + hdr)) := by omega
  refine ⟨⟨[(brk0, ⟨16, none, 0⟩)], none, brk0 + (16 + hdr)⟩,
    ⟨[(brk0, ⟨16, none, 0⟩), (brk0 + (16 + hdr), ⟨16, none, 0⟩)], none,
      brk0 + (16 + hdr) + (16 + hdr)⟩,
    rfl, ?_, by omega, by omega, ?_, ?_, by omega, rfl⟩
  · rw [my_malloc_empty_eq hdr true
      ⟨[(brk0, ⟨16, none, 0⟩)], none, brk0 + (16 + hdr)⟩ 16 (by decide) rfl]
    simp only [if_true]
    rw [writeB, if_neg hne2]
    rfl
  · rw [lookupB, if_pos rfl]
  · rw [lookupB, if_neg hne2, lookupB, if_pos rfl]
